import Mathlib

/-!
Shallow embedding of `src/Storages/DataLakes/IcebergMetadataParser.cpp`:
the Iceberg metadata resolution pipeline
(`getMetadataFile` → `getManifestListFromMetadata` → `getManifestFiles` →
`getFilesForRead`, composed by `getFiles`), together with theorems checking
the specification's claims about it.
-/

namespace Iceberg

/-- Error kinds thrown by the parser.
`fileDoesntExist` embeds `ErrorCodes::FILE_DOESNT_EXIST`;
`illegalColumn expected got` embeds `ErrorCodes::ILLEGAL_COLUMN` with the
expected column kind and the actual column family name from the message;
`jsonAccess key` embeds the exception Poco's `Object::getValue<T>(key)`
raises when `key` is absent (or not convertible);
`avroError` embeds failures inside the Avro library (out-of-range leaf). -/
inductive IcebergError where
  | fileDoesntExist (path : String)
  | illegalColumn (expected : String) (got : String)
  | jsonAccess (key : String)
  | avroError (msg : String)
  deriving DecidableEq

/-- One entry of the metadata document's `snapshots` array; the code reads
`snapshot-id` (Int64) and `manifest-list` (String) from it. -/
structure SnapshotJson where
  snapshotId : Int
  manifestList : String
  deriving DecidableEq

/-- The parsed JSON table-metadata document, restricted to the attributes the
code consumes. `currentSnapshotId = none` models the `current-snapshot-id`
key being absent (or not an integer), in which case Poco's
`getValue<Int64>` throws. -/
structure JsonDoc where
  currentSnapshotId : Option Int
  snapshots : List SnapshotJson

/-- A decoded column as the code dispatches on it (`IColumn::getDataType`):
a `ColumnString` with its row values, a `ColumnTuple` with its nested
columns, or any other column kind carrying its family name and row count. -/
inductive AvroColumn where
  | str (vals : List String)
  | tuple (cols : List AvroColumn)
  | other (family : String) (rows : Nat)

/-- `IColumn::getFamilyName` for the column kinds the code mentions in its
`ILLEGAL_COLUMN` messages. -/
def AvroColumn.familyName : AvroColumn → String
  | .str _ => "String"
  | .tuple _ => "Tuple"
  | .other f _ => f

/-- An Avro container file as the code sees it after
`DataFileReaderBase::dataSchema()` plus `parseAvro`: an ordered list of
top-level fields, each a name paired with its fully decoded column. -/
structure AvroFile where
  fields : List (String × AvroColumn)

/-- `dataSchema().root()->leafAt(i)` followed by decoding that field via
`parseAvro`: the column of the top-level field at position `i`, selected by
index, not by name. `none` models the out-of-range case. -/
def leafAt (f : AvroFile) (i : Nat) : Option AvroColumn :=
  (f.fields[i]?).map (·.2)

/-- The external collaborators of one resolution: the table root key
(`configuration.url.key`), the names returned by
`MetadataReadHelper::listFiles(configuration, "metadata", ".metadata.json")`,
and the contents behind `createReadBuffer` — parsed JSON for the metadata
file, decoded Avro containers for manifest-list and manifest files. -/
structure Storage where
  rootKey : String
  metadataFiles : List String
  readDoc : String → JsonDoc
  readAvro : String → AvroFile

/-- Split a character list at every `'/'` separator; always nonempty. -/
def splitSlash : List Char → List (List Char)
  | [] => [[]]
  | c :: rest =>
    match splitSlash rest with
    | [] => [[]]
    | g :: gs => if c = '/' then [] :: g :: gs else (c :: g) :: gs

/-- `std::filesystem::path(p).filename()`: the component after the last
separator (empty when `p` ends in a separator or is empty). -/
def filename (p : String) : String :=
  ⟨(splitSlash p.data).getLastD []⟩

/-- `std::filesystem::path(p).parent_path().filename()`: the component just
before the last separator. -/
def parentDirName (p : String) : String :=
  ⟨((splitSlash p.data).dropLast).getLastD []⟩

/-- `std::filesystem::path(a) / b` for a relative non-root `b`: appends a
separator unless `a` is empty or already ends with one; an absolute `b`
replaces `a`. -/
def pathAppend (a b : String) : String :=
  if b.data.head? = some '/' then b
  else if a.data.isEmpty || a.data.getLast? == some '/' then a ++ b
  else a ++ "/" ++ b

/-- `std::lexicographical_compare` on characters: the strict lexicographic
order `std::string::operator<` uses in `std::max_element`. -/
def charListLt : List Char → List Char → Bool
  | _, [] => false
  | [], _ :: _ => true
  | a :: as, b :: bs => if a < b then true else if b < a then false else charListLt as bs

/-- `std::string` `operator<`: lexicographic comparison of the contents. -/
def strLt (a b : String) : Bool := charListLt a.data b.data

/-- Prefix test on the characters of a string (used only in statements about
what the produced paths begin with). -/
def strBeginsWith (s pre : String) : Bool :=
  pre.data.isPrefixOf s.data

/-- The constant `metadata_directory` of the source. -/
def metadata_directory : String := "metadata"

/-- `getMetadataFile`: if `listFiles` returned nothing, throw
`FILE_DOESNT_EXIST`; otherwise return `*std::max_element(begin, end)` over
the names — the lexicographically greatest (the first such, on ties). -/
def getMetadataFile (files : List String) : Except IcebergError String :=
  match files with
  | [] => .error (.fileDoesntExist "The metadata file for Iceberg table doesn't exist")
  | f :: rest => .ok (rest.foldl (fun m x => if strLt m x then x else m) f)

/-- The `for` loop of `getManifestListFromMetadata` over the `snapshots`
array: the first entry whose `snapshot-id` equals `current_snapshot_id`. -/
def findSnapshot (cur : Int) : List SnapshotJson → Option SnapshotJson
  | [] => none
  | s :: rest => if s.snapshotId = cur then some s else findSnapshot cur rest

/-- `getManifestListFromMetadata`: locate the metadata file, parse it, read
`current-snapshot-id` as Int64 (throwing when absent), scan `snapshots`,
and on a match return
`path(configuration.url.key) / "metadata" / path(manifest-list).filename()`;
with no match return the empty string. -/
def getManifestListFromMetadata (st : Storage) : Except IcebergError String :=
  match getMetadataFile st.metadataFiles with
  | .error e => .error e
  | .ok metadata_file_path =>
    match (st.readDoc metadata_file_path).currentSnapshotId with
    | none => .error (.jsonAccess "current-snapshot-id")
    | some current_snapshot_id =>
      match findSnapshot current_snapshot_id (st.readDoc metadata_file_path).snapshots with
      | some snapshot =>
          .ok (pathAppend (pathAppend st.rootKey metadata_directory)
                (filename snapshot.manifestList))
      | none => .ok ""

/-- `getManifestFiles`: decode the column of the manifest-list file's field
at position 0 (`leafAt(0)`); if it is a String column, rewrite every value
to `path(configuration.url.key) / "metadata" / filename(value)`, else throw
`ILLEGAL_COLUMN` naming "String" and the actual column family. -/
def getManifestFiles (st : Storage) (manifest_list : String) :
    Except IcebergError (List String) :=
  match leafAt (st.readAvro manifest_list) 0 with
  | none => .error (.avroError "leafAt 0 out of range")
  | some col =>
    match col with
    | .str vals =>
        .ok (vals.map fun p =>
          pathAppend (pathAppend st.rootKey metadata_directory) (filename p))
    | c => .error (.illegalColumn "String" c.familyName)

/-- The per-file body of `getFilesForRead`: decode the column of the field
at position 2 (`leafAt(2)`, the `data_file` record); require a Tuple column
whose first nested column is String, and rewrite each of its values to
`path.parent_path().filename() / path.filename()`; otherwise throw
`ILLEGAL_COLUMN` naming the expected and actual kinds. -/
def dataFileKeys (col : AvroColumn) : Except IcebergError (List String) :=
  match col with
  | .tuple cols =>
    match cols with
    | [] => .error (.avroError "empty tuple")
    | c :: _ =>
      match c with
      | .str vals =>
          .ok (vals.map fun p => pathAppend (parentDirName p) (filename p))
      | c => .error (.illegalColumn "String" c.familyName)
  | c => .error (.illegalColumn "Tuple" c.familyName)

/-- `getFilesForRead`: iterate the manifest files in order, accumulating
`keys`; any thrown exception aborts the whole call, discarding keys already
accumulated. -/
def getFilesForRead (st : Storage) : List String → Except IcebergError (List String)
  | [] => .ok []
  | manifest_file :: rest =>
    match leafAt (st.readAvro manifest_file) 2 with
    | none => .error (.avroError "leafAt 2 out of range")
    | some col =>
      match dataFileKeys col with
      | .error e => .error e
      | .ok keys =>
        match getFilesForRead st rest with
        | .error e => .error e
        | .ok keys_rest => .ok (keys ++ keys_rest)

/-- `getFiles`: resolve the manifest list; empty means a freshly created
table with no data, returning no keys; otherwise read the manifest files
and return the data-file keys. -/
def getFiles (st : Storage) : Except IcebergError (List String) :=
  match getManifestListFromMetadata st with
  | .error e => .error e
  | .ok manifest_list =>
    if manifest_list = "" then .ok []
    else
      match getManifestFiles st manifest_list with
      | .error e => .error e
      | .ok manifest_files => getFilesForRead st manifest_files

/-- Modelled from the spec: the row loop of `parseAvro`
(`while hasMore: decr; deserializeRow`) drives `avro::DataFileReaderBase`
and `AvroDeserializer`, library code not under `src/`; per the spec the
reader yields every row of every block once, in file order, and
`deserializeRow` appends one decoded value per row to the output column. -/
def parseAvro : List (List String) → List String
  | [] => []
  | block :: blocks => block ++ parseAvro blocks

/-- Modelled from the spec: a `ColumnString` decoded by `parseAvro` from an
Avro container holding the given blocks of string rows. -/
def AvroColumn.strOfBlocks (blocks : List (List String)) : AvroColumn :=
  .str (parseAvro blocks)

/-- A `data_file` column shape that `getFilesForRead` accepts: a Tuple whose
first nested column is String. -/
def goodDataFileCol (col : AvroColumn) : Prop :=
  ∃ vs rest, col = .tuple (.str vs :: rest)

/-- A `data_file` column shape the claim describes as ill-typed: not a Tuple
at all, or a Tuple whose first nested column is not String. -/
def badDataFileCol (col : AvroColumn) : Prop :=
  (∀ cols, col ≠ .tuple cols) ∨
    (∃ c cs, col = .tuple (c :: cs) ∧ ∀ vs, c ≠ .str vs)

/-- Concrete table for the claim about re-anchoring: one snapshot, one
manifest-list entry, one manifest file with one data file. -/
def stC1 : Storage :=
  ⟨"table", ["v1.metadata.json"],
   fun _ => ⟨some 7, [⟨7, "/wh/tbl/metadata/snap-7.avro"⟩]⟩,
   fun p =>
     if p = "table/metadata/snap-7.avro" then
       ⟨[("manifest_path", .str ["/wh/tbl/metadata/m0.avro"]),
         ("manifest_length", .other "Int64" 1)]⟩
     else if p = "table/metadata/m0.avro" then
       ⟨[("status", .other "Int64" 1), ("snapshot_id", .other "Int64" 1),
         ("data_file", .tuple [.str ["/wh/tbl/data/p=1/a.parquet"],
                               .other "String" 1])]⟩
     else ⟨[]⟩⟩

/-- Concrete table whose metadata document has no `current-snapshot-id`
key. -/
def stC2absent : Storage :=
  ⟨"table", ["v1.metadata.json"],
   fun _ => ⟨none, [⟨1, "/wh/tbl/metadata/snap-1.avro"⟩]⟩,
   fun _ => ⟨[]⟩⟩

/-- Concrete table whose `current-snapshot-id` is present but matches no
entry of `snapshots`. -/
def stC2nomatch : Storage :=
  ⟨"table", ["v1.metadata.json"],
   fun _ => ⟨some 5, [⟨3, "/wh/tbl/metadata/snap-3.avro"⟩]⟩,
   fun _ => ⟨[]⟩⟩

/-- Concrete table for the end-to-end claim: one snapshot, one manifest-list
entry pointing to one manifest file listing `a.parquet` under `p=1/` and
`b.parquet` under `p=2/`. -/
def stC3 : Storage :=
  ⟨"table", ["v1.metadata.json"],
   fun _ => ⟨some 7, [⟨7, "/wh/tbl/metadata/snap-7.avro"⟩]⟩,
   fun p =>
     if p = "table/metadata/snap-7.avro" then
       ⟨[("manifest_path", .str ["/wh/tbl/metadata/m0.avro"]),
         ("manifest_length", .other "Int64" 1)]⟩
     else if p = "table/metadata/m0.avro" then
       ⟨[("status", .other "Int64" 2), ("snapshot_id", .other "Int64" 2),
         ("data_file", .tuple [.str ["/wh/tbl/data/p=1/a.parquet",
                                     "/wh/tbl/data/p=2/b.parquet"],
                               .other "String" 2])]⟩
     else ⟨[]⟩⟩

/-- Concrete metadata document from the spec's example: current snapshot 7,
snapshots `[{id 5}, {id 7, manifest-list X}]`. -/
def stC5 : Storage :=
  ⟨"tbl", ["v1.metadata.json"],
   fun _ => ⟨some 7, [⟨5, "/wh/tbl/metadata/Y.avro"⟩, ⟨7, "/wh/tbl/metadata/X.avro"⟩]⟩,
   fun _ => ⟨[]⟩⟩

/-- Concrete table whose manifest-list file's first field is an Int64
column, not String. -/
def stC6 : Storage :=
  ⟨"tbl", ["v1.metadata.json"],
   fun _ => ⟨some 1, [⟨1, "snap.avro"⟩]⟩,
   fun _ => ⟨[("manifest_path", .other "Int64" 3)]⟩⟩

/-- Concrete pair of manifest files: the first well-typed with one data
file, the second with a `data_file` field that is not a record. -/
def stC7 : Storage :=
  ⟨"tbl", ["v1.metadata.json"],
   fun _ => ⟨some 1, [⟨1, "snap.avro"⟩]⟩,
   fun p =>
     if p = "M1" then
       ⟨[("status", .other "Int64" 1), ("snapshot_id", .other "Int64" 1),
         ("data_file", .tuple [.str ["/wh/tbl/data/p=1/a.parquet"],
                               .other "String" 1])]⟩
     else
       ⟨[("status", .other "Int64" 1), ("snapshot_id", .other "Int64" 1),
         ("data_file", .str ["not-a-record"])]⟩⟩

/-- Concrete files whose fields carry names other than `manifest_path` and
`data_file`, with the expected types at positions 0 and 2. -/
def stC9 : Storage :=
  ⟨"tbl", ["v1.metadata.json"],
   fun _ => ⟨some 1, [⟨1, "snap.avro"⟩]⟩,
   fun p =>
     if p = "L" then
       ⟨[("totally_unrelated", .str ["/wh/tbl/metadata/m7.avro"]),
         ("second", .other "Int64" 1)]⟩
     else
       ⟨[("alpha", .other "Int64" 1), ("beta", .other "Int64" 1),
         ("gamma", .tuple [.str ["/wh/tbl/data/p=3/c.parquet"]]),
         ("delta", .other "Int64" 1)]⟩⟩

/-- Concrete metadata document with two snapshot entries both carrying the
current snapshot id, with different manifest lists. -/
def stC10 : Storage :=
  ⟨"tbl", ["v1.metadata.json"],
   fun _ => ⟨some 7, [⟨5, "/wh/tbl/metadata/A.avro"⟩,
                      ⟨7, "/wh/tbl/metadata/X.avro"⟩,
                      ⟨7, "/wh/tbl/metadata/Y.avro"⟩]⟩,
   fun _ => ⟨[]⟩⟩

theorem charListLt_iff (cs ds : List Char) :
    charListLt cs ds = true ↔ List.Lex (· < ·) cs ds := by
  induction cs generalizing ds with
  | nil =>
    cases ds with
    | nil => simp [charListLt]
    | cons d ds => simp [charListLt]; exact List.Lex.nil
  | cons a as ih =>
    cases ds with
    | nil => simp [charListLt]
    | cons b bs =>
      simp only [charListLt]
      by_cases hab : a < b
      · simp only [hab, if_true]
        exact ⟨fun _ => List.Lex.rel hab, fun _ => trivial⟩
      · by_cases hba : b < a
        · simp only [hab, if_false, hba, if_true]
          constructor
          · intro h; exact absurd h (by simp)
          · intro h
            cases h with
            | rel h' => exact absurd h' hab
            | cons h' => exact absurd hba (lt_irrefl a)
        · have heq : a = b := le_antisymm (not_lt.mp hba) (not_lt.mp hab)
          subst heq
          simp only [hab, if_false]
          rw [List.Lex.cons_iff]
          exact ih bs

theorem strLt_iff (a b : String) : strLt a b = true ↔ a < b := by
  rw [String.lt_iff_toList_lt]
  exact charListLt_iff a.data b.data

theorem strLt_step_eq :
    (fun m x : String => if strLt m x then x else m) =
      (fun m x : String => if m < x then x else m) := by
  funext m x
  by_cases h : m < x
  · rw [if_pos ((strLt_iff m x).mpr h), if_pos h]
  · rw [if_neg (fun hc => h ((strLt_iff m x).mp hc)), if_neg h]

theorem foldl_max_mem (f : String) (rest : List String) :
    rest.foldl (fun m x => if m < x then x else m) f ∈ f :: rest := by
  induction rest generalizing f with
  | nil => exact List.mem_singleton.mpr rfl
  | cons r rs ih =>
    rw [List.foldl_cons]
    have h := ih (if f < r then r else f)
    rcases List.mem_cons.mp h with h1 | h1
    · rw [h1]
      by_cases hfr : f < r
      · simp [hfr]
      · simp [hfr]
    · exact List.mem_cons.mpr (Or.inr (List.mem_cons.mpr (Or.inr h1)))

theorem foldl_max_ge (f : String) (rest : List String) :
    ∀ x ∈ f :: rest, x ≤ rest.foldl (fun m x => if m < x then x else m) f := by
  induction rest generalizing f with
  | nil =>
    intro x hx
    rw [List.mem_singleton] at hx
    subst hx
    simp
  | cons r rs ih =>
    intro x hx
    rw [List.foldl_cons]
    have hstep_f : f ≤ if f < r then r else f := by
      by_cases hfr : f < r
      · rw [if_pos hfr]; exact le_of_lt hfr
      · rw [if_neg hfr]
    have hstep_r : r ≤ if f < r then r else f := by
      by_cases hfr : f < r
      · rw [if_pos hfr]
      · rw [if_neg hfr]; exact not_lt.mp hfr
    have hhead := ih (if f < r then r else f) _ (List.mem_cons_self _ rs)
    rcases List.mem_cons.mp hx with rfl | h1
    · exact le_trans hstep_f hhead
    · rcases List.mem_cons.mp h1 with rfl | h2
      · exact le_trans hstep_r hhead
      · exact ih _ x (List.mem_cons.mpr (Or.inr h2))

theorem findSnapshot_eq_none (cur : Int) (l : List SnapshotJson)
    (h : ∀ s ∈ l, s.snapshotId ≠ cur) : findSnapshot cur l = none := by
  induction l with
  | nil => rfl
  | cons s rest ih =>
    simp only [findSnapshot]
    rw [if_neg (h s (List.mem_cons_self s rest))]
    exact ih fun x hx => h x (List.mem_cons.mpr (Or.inr hx))

theorem findSnapshot_mem (cur : Int) (l : List SnapshotJson) (s : SnapshotJson)
    (h : findSnapshot cur l = some s) : s ∈ l ∧ s.snapshotId = cur := by
  induction l with
  | nil => exact absurd h (by simp [findSnapshot])
  | cons t rest ih =>
    simp only [findSnapshot] at h
    by_cases ht : t.snapshotId = cur
    · rw [if_pos ht] at h
      have hs := Option.some.inj h
      subst hs
      exact ⟨List.mem_cons_self t rest, ht⟩
    · rw [if_neg ht] at h
      have := ih h
      exact ⟨List.mem_cons.mpr (Or.inr this.1), this.2⟩

theorem findSnapshot_isSome (cur : Int) (l : List SnapshotJson)
    (h : ∃ s ∈ l, s.snapshotId = cur) : ∃ s, findSnapshot cur l = some s := by
  induction l with
  | nil => simp at h
  | cons t rest ih =>
    simp only [findSnapshot]
    by_cases ht : t.snapshotId = cur
    · exact ⟨t, by rw [if_pos ht]⟩
    · rw [if_neg ht]
      rcases h with ⟨s, hs, hsid⟩
      rcases List.mem_cons.mp hs with rfl | hmem
      · exact absurd hsid ht
      · exact ih ⟨s, hmem, hsid⟩

theorem findSnapshot_append (cur : Int) (pre : List SnapshotJson)
    (s1 : SnapshotJson) (tail : List SnapshotJson)
    (hpre : ∀ s ∈ pre, s.snapshotId ≠ cur) (h1 : s1.snapshotId = cur) :
    findSnapshot cur (pre ++ s1 :: tail) = some s1 := by
  induction pre with
  | nil =>
    rw [List.nil_append]
    simp only [findSnapshot]
    rw [if_pos h1]
  | cons t rest ih =>
    rw [List.cons_append]
    simp only [findSnapshot]
    rw [if_neg (hpre t (List.mem_cons_self t rest))]
    exact ih fun x hx => hpre x (List.mem_cons.mpr (Or.inr hx))

theorem getManifestListFromMetadata_eq (st : Storage) (mf : String) (cur : Int)
    (hmf : getMetadataFile st.metadataFiles = .ok mf)
    (hcur : (st.readDoc mf).currentSnapshotId = some cur) :
    getManifestListFromMetadata st =
      (match findSnapshot cur (st.readDoc mf).snapshots with
      | some snapshot =>
          .ok (pathAppend (pathAppend st.rootKey metadata_directory)
                (filename snapshot.manifestList))
      | none => .ok "") := by
  unfold getManifestListFromMetadata
  rw [hmf]
  simp only [hcur]

theorem parseAvro_eq_flatten (blocks : List (List String)) :
    parseAvro blocks = blocks.flatten := by
  induction blocks with
  | nil => rfl
  | cons b bs ih =>
    simp only [parseAvro]
    rw [ih, List.flatten_cons]

/-- Claim C4: the Metadata File Locator returns the lexicographically
greatest (string-ordered) name among the listed `.metadata.json` files —
among unpadded versions v1, v2, v10 it selects v2 — and it fails with the
MetadataNotFound condition (`FILE_DOESNT_EXIST`) iff the listing contains
no matching file. -/
theorem metadata_locator_returns_lexicographic_max (files : List String) :
    ((∃ p, getMetadataFile files = .error (.fileDoesntExist p)) ↔ files = []) ∧
    (files ≠ [] →
      ∃ m, getMetadataFile files = .ok m ∧ m ∈ files ∧ ∀ x ∈ files, x ≤ m) ∧
    getMetadataFile ["v1.metadata.json", "v2.metadata.json", "v10.metadata.json"] =
      .ok "v2.metadata.json" := by
  refine ⟨⟨?_, ?_⟩, ?_, rfl⟩
  · rintro ⟨p, hp⟩
    cases files with
    | nil => rfl
    | cons f rest => simp [getMetadataFile] at hp
  · intro h
    subst h
    exact ⟨_, rfl⟩
  · intro h
    cases files with
    | nil => exact absurd rfl h
    | cons f rest =>
      refine ⟨_, rfl, ?_, ?_⟩
      · rw [strLt_step_eq]
        exact foldl_max_mem f rest
      · intro x hx
        rw [strLt_step_eq]
        exact foldl_max_ge f rest x hx

/-- Witness for the Metadata File Locator claim at the spec's v1/v2/v10
listing. -/
theorem metadata_locator_returns_lexicographic_max_witness :
    (["v1.metadata.json", "v2.metadata.json", "v10.metadata.json"] ≠
      ([] : List String)) ∧
    ∃ m,
      getMetadataFile ["v1.metadata.json", "v2.metadata.json", "v10.metadata.json"] =
        .ok m ∧
      m ∈ ["v1.metadata.json", "v2.metadata.json", "v10.metadata.json"] ∧
      ∀ x ∈ ["v1.metadata.json", "v2.metadata.json", "v10.metadata.json"], x ≤ m :=
  ⟨by decide, (metadata_locator_returns_lexicographic_max _).2.1 (by decide)⟩

theorem getFilesForRead_cons (st : Storage) (m : String) (rest : List String)
    (col : AvroColumn) (hcol : leafAt (st.readAvro m) 2 = some col) :
    getFilesForRead st (m :: rest) =
      (match dataFileKeys col with
      | .error e => .error e
      | .ok keys =>
        match getFilesForRead st rest with
        | .error e => .error e
        | .ok keys_rest => .ok (keys ++ keys_rest)) := by
  conv_lhs => rw [getFilesForRead]
  rw [hcol]

theorem dataFileKeys_good (vs : List String) (rest : List AvroColumn) :
    dataFileKeys (.tuple (.str vs :: rest)) =
      .ok (vs.map fun p => pathAppend (parentDirName p) (filename p)) := rfl

theorem dataFileKeys_bad (col : AvroColumn) (h : badDataFileCol col) :
    ∃ e g, dataFileKeys col = .error (.illegalColumn e g) := by
  rcases h with h | ⟨c, cs, hc, hcs⟩
  · cases col with
    | str vs => exact ⟨"Tuple", "String", rfl⟩
    | tuple cols => exact absurd rfl (h cols)
    | other f n => exact ⟨"Tuple", f, rfl⟩
  · subst hc
    cases c with
    | str vs => exact absurd rfl (hcs vs)
    | tuple cols => exact ⟨"String", "Tuple", rfl⟩
    | other f n => exact ⟨"String", f, rfl⟩

theorem not_good_and_bad (col : AvroColumn) (hg : goodDataFileCol col)
    (hb : badDataFileCol col) : False := by
  rcases hg with ⟨vs, rest, rfl⟩
  rcases hb with h | ⟨c, cs, hc, hcs⟩
  · exact h _ rfl
  · injection hc with h1
    injection h1 with h2 h3
    exact hcs vs h2.symm

/-- Claim C5: for every metadata document containing a snapshot entry whose
`snapshot-id` (Int64) equals `current-snapshot-id`, the Snapshot Resolver
returns that entry's `manifest-list` value rewritten as
`table-root/metadata/filename(manifest-list)`. -/
theorem snapshot_resolver_rewrites_manifest_list (st : Storage) (mf : String)
    (cur : Int)
    (hmf : getMetadataFile st.metadataFiles = .ok mf)
    (hcur : (st.readDoc mf).currentSnapshotId = some cur)
    (hex : ∃ s ∈ (st.readDoc mf).snapshots, s.snapshotId = cur) :
    ∃ s ∈ (st.readDoc mf).snapshots, s.snapshotId = cur ∧
      getManifestListFromMetadata st =
        .ok (pathAppend (pathAppend st.rootKey metadata_directory)
              (filename s.manifestList)) := by
  obtain ⟨s, hfind⟩ := findSnapshot_isSome cur _ hex
  obtain ⟨hmem, hid⟩ := findSnapshot_mem cur _ s hfind
  refine ⟨s, hmem, hid, ?_⟩
  rw [getManifestListFromMetadata_eq st mf cur hmf hcur, hfind]

/-- Witness for the Snapshot Resolver claim at the spec's example document:
current snapshot 7, snapshots `[{id 5}, {id 7, manifest-list X}]`. -/
theorem snapshot_resolver_rewrites_manifest_list_witness :
    ∃ s ∈ (stC5.readDoc "v1.metadata.json").snapshots, s.snapshotId = 7 ∧
      getManifestListFromMetadata stC5 =
        .ok (pathAppend (pathAppend stC5.rootKey metadata_directory)
              (filename s.manifestList)) :=
  snapshot_resolver_rewrites_manifest_list stC5 "v1.metadata.json" 7 rfl rfl
    ⟨⟨7, "/wh/tbl/metadata/X.avro"⟩, by decide, rfl⟩

/-- Claim C10: when several `snapshots` entries carry the current snapshot
id, the Snapshot Resolver uses the first such entry in array order and
ignores the later ones. -/
theorem snapshot_resolver_first_match_wins (st : Storage) (mf : String)
    (cur : Int) (pre mid post : List SnapshotJson) (s1 s2 : SnapshotJson)
    (hmf : getMetadataFile st.metadataFiles = .ok mf)
    (hcur : (st.readDoc mf).currentSnapshotId = some cur)
    (hsnap : (st.readDoc mf).snapshots = pre ++ s1 :: (mid ++ s2 :: post))
    (hpre : ∀ s ∈ pre, s.snapshotId ≠ cur)
    (h1 : s1.snapshotId = cur) (h2 : s2.snapshotId = cur) :
    getManifestListFromMetadata st =
      .ok (pathAppend (pathAppend st.rootKey metadata_directory)
            (filename s1.manifestList)) := by
  rw [getManifestListFromMetadata_eq st mf cur hmf hcur, hsnap,
    findSnapshot_append cur pre s1 _ hpre h1]

/-- Witness for the first-match claim: two entries with id 7; the result
uses the manifest list of the first. -/
theorem snapshot_resolver_first_match_wins_witness :
    getManifestListFromMetadata stC10 = .ok "tbl/metadata/X.avro" :=
  snapshot_resolver_first_match_wins stC10 "v1.metadata.json" 7
    [⟨5, "/wh/tbl/metadata/A.avro"⟩] [] []
    ⟨7, "/wh/tbl/metadata/X.avro"⟩ ⟨7, "/wh/tbl/metadata/Y.avro"⟩
    rfl rfl rfl (by decide) rfl rfl

/-- Counterexample to claim C2: with `current-snapshot-id` absent from the
metadata document, getFiles fails with the JSON key-access error rather
than returning an empty sequence of paths. -/
theorem absent_snapshot_id_fails :
    getFiles stC2absent = .error (.jsonAccess "current-snapshot-id") ∧
      ∀ r, getFiles stC2absent ≠ .ok r := by
  constructor
  · rfl
  · intro r h
    have h2 : (Except.error (IcebergError.jsonAccess "current-snapshot-id") :
        Except IcebergError (List String)) = Except.ok r :=
      Eq.trans (by rfl) h
    exact Except.noConfusion h2

/-- Claim C2 (amended): when `current-snapshot-id` is present as an integer
but matches no entry of `snapshots`, getFiles returns the empty sequence;
when the key is absent, getFiles instead fails with the JSON access
error. -/
theorem no_matching_snapshot_yields_empty (st : Storage) (mf : String)
    (hmf : getMetadataFile st.metadataFiles = .ok mf) :
    (∀ cur : Int, (st.readDoc mf).currentSnapshotId = some cur →
      (∀ s ∈ (st.readDoc mf).snapshots, s.snapshotId ≠ cur) →
      getFiles st = .ok []) ∧
    ((st.readDoc mf).currentSnapshotId = none →
      getFiles st = .error (.jsonAccess "current-snapshot-id")) := by
  constructor
  · intro cur hcur hnone
    have h := getManifestListFromMetadata_eq st mf cur hmf hcur
    rw [findSnapshot_eq_none cur _ hnone] at h
    unfold getFiles
    rw [h]
    rfl
  · intro hnone
    unfold getFiles getManifestListFromMetadata
    rw [hmf]
    simp only [hnone]

/-- Witness for the amended no-matching-snapshot claim: current id 5 with a
single snapshot of id 3 resolves to the empty file list. -/
theorem no_matching_snapshot_yields_empty_witness :
    getFiles stC2nomatch = .ok [] :=
  (no_matching_snapshot_yields_empty stC2nomatch "v1.metadata.json" rfl).1
    5 rfl (by decide)

/-- Claim C6: when the column decoded for `manifest_path` is not
String-typed, the Manifest-List Reader fails with the ILLEGAL_COLUMN type
mismatch naming the expected kind (String) and the actual column family,
and returns no decoded paths at all. -/
theorem manifest_list_type_mismatch_fails (st : Storage) (ml : String)
    (col : AvroColumn)
    (hcol : leafAt (st.readAvro ml) 0 = some col)
    (hnstr : ∀ vs, col ≠ .str vs) :
    getManifestFiles st ml = .error (.illegalColumn "String" col.familyName) ∧
      ∀ r, getManifestFiles st ml ≠ .ok r := by
  have hmain : getManifestFiles st ml =
      .error (.illegalColumn "String" col.familyName) := by
    unfold getManifestFiles
    rw [hcol]
    cases col with
    | str vs => exact absurd rfl (hnstr vs)
    | tuple cols => rfl
    | other f n => rfl
  exact ⟨hmain, fun r h => Except.noConfusion (hmain.symm.trans h)⟩

/-- Witness for the manifest-list type-mismatch claim: a manifest-list file
whose first field is an Int64 column. -/
theorem manifest_list_type_mismatch_fails_witness :
    getManifestFiles stC6 "L" = .error (.illegalColumn "String" "Int64") ∧
      ∀ r, getManifestFiles stC6 "L" ≠ .ok r :=
  manifest_list_type_mismatch_fails stC6 "L" (.other "Int64" 3) rfl
    (fun vs h => AvroColumn.noConfusion h)

/-- Claim C7: in getFilesForRead, if any manifest file's decoded `data_file`
column is not a record, or its first sub-field is not a string, the whole
call fails with the ILLEGAL_COLUMN type mismatch, and the data-file paths
accumulated from earlier manifest files are not returned. -/
theorem manifest_file_type_mismatch_aborts (st : Storage) (ms : List String)
    (hall : ∀ m ∈ ms, ∃ col, leafAt (st.readAvro m) 2 = some col ∧
      (goodDataFileCol col ∨ badDataFileCol col))
    (hbad : ∃ m ∈ ms, ∃ col, leafAt (st.readAvro m) 2 = some col ∧
      badDataFileCol col) :
    (∃ expected got, getFilesForRead st ms =
      .error (.illegalColumn expected got)) ∧
      ∀ r, getFilesForRead st ms ≠ .ok r := by
  have hmain : ∃ expected got, getFilesForRead st ms =
      .error (.illegalColumn expected got) := by
    induction ms with
    | nil => simp at hbad
    | cons m rest ih =>
      obtain ⟨col, hcol, hgb⟩ := hall m (List.mem_cons_self m rest)
      rcases hgb with hgood | hbadcol
      · obtain ⟨vs, r0, rfl⟩ := hgood
        have hbad_rest : ∃ m2 ∈ rest, ∃ col2,
            leafAt (st.readAvro m2) 2 = some col2 ∧ badDataFileCol col2 := by
          rcases hbad with ⟨m2, hm2, col2, hcol2, hbad2⟩
          rcases List.mem_cons.mp hm2 with rfl | hm2r
          · rw [hcol] at hcol2
            have hc := Option.some.inj hcol2
            subst hc
            exact absurd hbad2 (fun hb =>
              not_good_and_bad _ ⟨vs, r0, rfl⟩ hb)
          · exact ⟨m2, hm2r, col2, hcol2, hbad2⟩
        obtain ⟨e, g, herr⟩ :=
          ih (fun x hx => hall x (List.mem_cons.mpr (Or.inr hx))) hbad_rest
        refine ⟨e, g, ?_⟩
        rw [getFilesForRead_cons st m rest _ hcol, dataFileKeys_good, herr]
      · obtain ⟨e, g, herr⟩ := dataFileKeys_bad col hbadcol
        refine ⟨e, g, ?_⟩
        rw [getFilesForRead_cons st m rest _ hcol, herr]
  obtain ⟨e, g, herr⟩ := hmain
  exact ⟨⟨e, g, herr⟩, fun r h => Except.noConfusion (herr.symm.trans h)⟩

/-- Witness for the manifest-file type-mismatch claim: a well-typed manifest
followed by one whose `data_file` field is a plain string column. -/
theorem manifest_file_type_mismatch_aborts_witness :
    (∃ expected got, getFilesForRead stC7 ["M1", "M2"] =
      .error (.illegalColumn expected got)) ∧
      ∀ r, getFilesForRead stC7 ["M1", "M2"] ≠ .ok r :=
  manifest_file_type_mismatch_aborts stC7 ["M1", "M2"]
    (by
      intro m hm
      rcases List.mem_cons.mp hm with rfl | hm2
      · exact ⟨.tuple [.str ["/wh/tbl/data/p=1/a.parquet"], .other "String" 1],
          rfl, Or.inl ⟨["/wh/tbl/data/p=1/a.parquet"], [.other "String" 1], rfl⟩⟩
      · rcases List.mem_cons.mp hm2 with rfl | hm3
        · exact ⟨.str ["not-a-record"], rfl,
            Or.inr (Or.inl (fun cols h => AvroColumn.noConfusion h))⟩
        · simp at hm3)
    ⟨"M2", by decide, .str ["not-a-record"], rfl,
      Or.inl (fun cols h => AvroColumn.noConfusion h)⟩

/-- Claim C8: the Projection Avro Decoder yields exactly one value per row
across all blocks, in file order: the decoded column is the concatenation
of the blocks (round-trip of the encoded rows) and its length is the total
row count across all blocks. -/
theorem parse_avro_preserves_rows (blocks : List (List String))
    (vs : List String) (henc : blocks.flatten = vs) :
    AvroColumn.strOfBlocks blocks = .str vs ∧
      (parseAvro blocks).length = (blocks.map List.length).sum := by
  constructor
  · unfold AvroColumn.strOfBlocks
    rw [parseAvro_eq_flatten, henc]
  · rw [parseAvro_eq_flatten]
    exact List.length_flatten blocks

/-- Witness for the row-preservation claim at a three-block container. -/
theorem parse_avro_preserves_rows_witness :
    AvroColumn.strOfBlocks [["a"], ["b", "c"], []] = .str ["a", "b", "c"] ∧
      (parseAvro [["a"], ["b", "c"], []]).length =
        ([["a"], ["b", "c"], ([] : List String)].map List.length).sum :=
  parse_avro_preserves_rows [["a"], ["b", "c"], []] ["a", "b", "c"] rfl

/-- Claim C9: the projection decoders select the decoded column purely by
position — index 0 for manifest-list files, index 2 for manifest files —
whatever the field names in the file are; the names `manifest_path` and
`data_file` are only labels, so a file with differently named fields still
has the positional column decoded whenever its type matches. -/
theorem projection_selects_field_by_position (st : Storage) :
    (∀ ml name vs rest, (st.readAvro ml).fields = (name, .str vs) :: rest →
      getManifestFiles st ml = .ok (vs.map fun p =>
        pathAppend (pathAppend st.rootKey metadata_directory) (filename p))) ∧
    (∀ mf f0 f1 name2 vs cols rest,
      (st.readAvro mf).fields =
        f0 :: f1 :: (name2, .tuple (.str vs :: cols)) :: rest →
      getFilesForRead st [mf] = .ok (vs.map fun p =>
        pathAppend (parentDirName p) (filename p))) := by
  constructor
  · intro ml name vs rest h
    have hleaf : leafAt (st.readAvro ml) 0 = some (.str vs) := by
      unfold leafAt
      rw [h]
      simp
    unfold getManifestFiles
    rw [hleaf]
  · intro mf f0 f1 name2 vs cols rest h
    have hleaf : leafAt (st.readAvro mf) 2 = some (.tuple (.str vs :: cols)) := by
      unfold leafAt
      rw [h]
      simp
    rw [getFilesForRead_cons st mf [] _ hleaf, dataFileKeys_good,
      show getFilesForRead st [] = Except.ok [] from rfl]
    simp

/-- Witness for the positional-projection claim: files whose fields carry
unrelated names still have the columns at positions 0 and 2 decoded. -/
theorem projection_selects_field_by_position_witness :
    getManifestFiles stC9 "L" = .ok ["tbl/metadata/m7.avro"] ∧
      getFilesForRead stC9 ["M"] = .ok ["p=3/c.parquet"] :=
  ⟨(projection_selects_field_by_position stC9).1 "L" "totally_unrelated"
      ["/wh/tbl/metadata/m7.avro"] [("second", .other "Int64" 1)] rfl,
    (projection_selects_field_by_position stC9).2 "M"
      ("alpha", .other "Int64" 1) ("beta", .other "Int64" 1) "gamma"
      ["/wh/tbl/data/p=3/c.parquet"] [] [("delta", .other "Int64" 1)] rfl⟩

/-- Counterexample to claim C1: getFiles emits each data-file path
re-anchored as parent-directory/filename only; the output path does not
begin with the table root followed by the metadata directory name. -/
theorem manifest_reader_output_lacks_metadata_anchor :
    getFiles stC1 = .ok ["p=1/a.parquet"] ∧
      strBeginsWith "p=1/a.parquet"
        (pathAppend stC1.rootKey metadata_directory) = false :=
  ⟨rfl, rfl⟩

/-- Claim C1 (amended): the Manifest-File Reader re-anchors every extracted
data-file path by keeping only its immediate parent directory name joined
with its filename, prepending nothing; getFilesForRead returns exactly
those joined pairs, in order, across all manifest files. -/
theorem manifest_reader_keeps_parent_and_filename (st : Storage)
    (ms : List String) (vals : String → List String)
    (h : ∀ m ∈ ms, ∃ rest, leafAt (st.readAvro m) 2 =
      some (.tuple (.str (vals m) :: rest))) :
    getFilesForRead st ms =
      .ok (ms.flatMap fun m => (vals m).map fun p =>
        pathAppend (parentDirName p) (filename p)) := by
  induction ms with
  | nil => rfl
  | cons m rest ih =>
    obtain ⟨r0, hleaf⟩ := h m (List.mem_cons_self m rest)
    rw [getFilesForRead_cons st m rest _ hleaf, dataFileKeys_good,
      ih (fun x hx => h x (List.mem_cons.mpr (Or.inr hx))), List.flatMap_cons]

/-- Witness for the amended re-anchoring claim at a one-manifest table. -/
theorem manifest_reader_keeps_parent_and_filename_witness :
    getFilesForRead stC1 ["table/metadata/m0.avro"] = .ok ["p=1/a.parquet"] :=
  manifest_reader_keeps_parent_and_filename stC1 ["table/metadata/m0.avro"]
    (fun _ => ["/wh/tbl/data/p=1/a.parquet"])
    (by
      intro m hm
      rw [List.mem_singleton] at hm
      subst hm
      exact ⟨[.other "String" 1], rfl⟩)

/-- Claim C3: end-to-end, a table with one snapshot, one manifest-list entry
pointing to one manifest file listing `a.parquet` under `p=1/` and
`b.parquet` under `p=2/` resolves to exactly
`["p=1/a.parquet", "p=2/b.parquet"]`, in file order. -/
theorem end_to_end_two_partitioned_files :
    getFiles stC3 = .ok ["p=1/a.parquet", "p=2/b.parquet"] := rfl

end Iceberg
